import Mathlib

/-!
Verification development for a Go TLS/HTTP2 fingerprint library.
Go strings are modelled as `List Char`; Go machine integers are modelled
as `Nat`/`Int` with explicit reductions modulo `2 ^ 16` / `2 ^ 32` at the
points where the source converts between integer types.
-/

namespace Ja3

/-- Character list of a string literal; the embedding models Go strings as
lists of characters. -/
def str (s : String) : List Char := s.data

/-- Model of Go `strings.Split` with a single-character separator.
`strings.Split("", sep)` yields `[""]`, mirrored by the `[]` case. -/
def splitSep (sep : Char) : List Char → List (List Char)
  | [] => [[]]
  | c :: cs =>
    if c = sep then [] :: splitSep sep cs
    else
      match splitSep sep cs with
      | [] => [[c]]
      | t :: ts => (c :: t) :: ts

/-- Model of Go `strings.Join` with a single-character separator. -/
def joinSep (sep : Char) : List (List Char) → List Char
  | [] => []
  | t :: ts =>
    match ts with
    | [] => t
    | _ :: _ => t ++ sep :: joinSep sep ts

/-- The decimal digit character for `d < 10`. -/
def digitChar (d : ℕ) : Char := Char.ofNat (48 + d)

/-- Fuel-indexed decimal printer; the fuel only bounds the number of digit
extractions, so `n + 1` units always suffice. -/
def natDigitsAux : ℕ → ℕ → List Char
  | 0, _ => []
  | fuel + 1, n =>
    if n < 10 then [digitChar n]
    else natDigitsAux fuel (n / 10) ++ [digitChar (n % 10)]

/-- Decimal digits of a natural number: the model of Go `%d` formatting of
unsigned values (and of `fmt.Sprint` on them). -/
def natDigits (n : ℕ) : List Char := natDigitsAux (n + 1) n

/-- ASCII decimal digit test. -/
def isDigitCh (c : Char) : Bool := 48 ≤ c.toNat && c.toNat ≤ 57

/-- Numeric value of a digit character. -/
def digitVal (c : Char) : ℕ := c.toNat - 48

/-- Reads a digit string most-significant-first. -/
def parseDigits (l : List Char) : ℕ := l.foldl (fun a c => a * 10 + digitVal c) 0

/-- Digits-and-range part of `strconv.Atoi`: requires a nonempty all-digit
string whose signed value fits in `int64`. -/
def goAtoiMag (neg : Bool) (ds : List Char) : Option Int :=
  if ds = [] then none
  else if ds.all isDigitCh then
    if (if neg then -(parseDigits ds : Int) else (parseDigits ds : Int)) < -(2 ^ 63) ∨
        2 ^ 63 - 1 < (if neg then -(parseDigits ds : Int) else (parseDigits ds : Int)) then none
    else some (if neg then -(parseDigits ds : Int) else (parseDigits ds : Int))
  else none

/-- Model of Go `strconv.Atoi`: an optional single sign character, a
nonempty run of decimal digits, and an `int64` range check; anything else
is a parse error (`none`). -/
def goAtoi : List Char → Option Int
  | '+' :: rest => goAtoiMag false rest
  | '-' :: rest => goAtoiMag true rest
  | l => goAtoiMag false l

/-- Model of Go's conversion `uint16(i)` from a signed integer. -/
def toU16 (i : Int) : ℕ := (i % 65536).toNat

/-- Model of Go's conversion `uint32(i)` from a signed integer. -/
def toU32 (i : Int) : ℕ := (i % 4294967296).toNat

/- ### TLS handshake-parameter model -/

/-- A 16-bit TLS group / curve identifier (Go `uint16` / `utls.CurveID`). -/
abbrev GroupId := Fin 65536

/-- Go's conversion `uint16(i)` landing in the group-id type. -/
def toGroupId (i : Int) : GroupId :=
  Fin.mk (toU16 i) (by
    have h1 : 0 ≤ i % 65536 := Int.emod_nonneg i (by norm_num)
    have h2 : i % 65536 < 65536 := Int.emod_lt_of_pos i (by norm_num)
    simp only [toU16]
    omega)

/-- Model of `utls.KeyShare`: a group id plus opaque payload bytes. -/
structure KeyShare where
  group : GroupId
  data : List ℕ
deriving DecidableEq

/-- Marker for the function stored in the `GetSessionID` field; the source
only ever stores `sha256.Sum256` there. -/
inductive SessionIdFun where
  | sha256Sum256
deriving DecidableEq

/-- Model of the `utls.TLSExtension` values the source dispatches on:
key-share and supported-curves extensions are pruned, the ALPN extension is
rewritten by protocol-mode adjustment, and every other extension kind is an
opaque tag/payload pair that the code never touches. -/
inductive Ext where
  | keyShare (keyShares : List KeyShare)
  | supportedCurves (curves : List GroupId)
  | alpn (alpnProtocols : List String)
  | other (tag : ℕ) (payload : List ℕ)
deriving DecidableEq

/-- Model of `utls.ClientHelloSpec` restricted to the fields the source
reads or writes. -/
structure ClientHelloSpec where
  cipherSuites : List ℕ
  compressionMethods : List ℕ
  extensions : List Ext
  getSessionID : Option SessionIdFun
deriving DecidableEq

/-- The registry state behind `Client.specErrData`: an association list from
destination key to the destination's set of rejected group ids (the
`specErr.KeyShareExtension` set). -/
abbrev Reg := List (String × Finset GroupId)

/-- Model of `sync.Map.Load`. -/
def regLookup : Reg → String → Option (Finset GroupId)
  | [], _ => none
  | (k, s) :: rest, key => if k = key then some s else regLookup rest key

/-- Model of `sync.Map.Store` (and of mutating the looked-up record in
place, which overwrites the destination's set with the grown one). -/
def regStore : Reg → String → Finset GroupId → Reg
  | [], key, v => [(key, v)]
  | (k, s) :: rest, key, v =>
    if k = key then (key, v) :: rest else (k, s) :: regStore rest key v

/-- `Client.setSpecErrWithKeyShareExtension`: record `value` as rejected for
destination `key`; returns whether the set actually grew, together with the
updated registry. -/
def setSpecErrWithKeyShareExtension (reg : Reg) (key : String) (value : GroupId) :
    Bool × Reg :=
  match regLookup reg key with
  | some s =>
    if value ∈ s then (false, reg)
    else (true, regStore reg key (insert value s))
  | none => (true, regStore reg key {value})

/-- The literal part of the pattern
`unsupported Curve in KeyShareExtension: CurveID\((\d+)\)`. -/
def curveErrLit : List Char := str "unsupported Curve in KeyShareExtension: CurveID("

/-- Match of the CurveID pattern anchored at the start of `l`: the literal
prefix, a maximal nonempty digit run, then a closing parenthesis; returns
the digit run (capture group 1). Since a parenthesis is not a digit, a
match starting here exists exactly when the maximal digit run works, so
this agrees with the regexp engine's semantics at a fixed start. -/
def matchCurveAt (l : List Char) : Option (List Char) :=
  if l.take curveErrLit.length = curveErrLit then
    let rest := l.drop curveErrLit.length
    let ds := rest.takeWhile isDigitCh
    if ds.isEmpty then none
    else if (rest.drop ds.length).head? = some ')' then some ds
    else none
  else none

/-- Model of `re.Search` with the CurveID pattern: leftmost match wins. -/
def reSearchCurve : List Char → Option (List Char)
  | [] => none
  | c :: rest =>
    match matchCurveAt (c :: rest) with
    | some ds => some ds
    | none => reSearchCurve rest

/-- `Client.setSpecErrWithError`: classify an opaque error message; on the
single recognized shape, parse the group id and record it. -/
def setSpecErrWithError (reg : Reg) (key : String) (msg : List Char) : Bool × Reg :=
  match reSearchCurve msg with
  | none => (false, reg)
  | some ds =>
    match goAtoi ds with
    | none => (false, reg)
    | some i => setSpecErrWithKeyShareExtension reg key (toGroupId i)

/-- The Go filtering loop over one key-share list: an accumulator pair of
the `change` flag and the rebuilt `keyShares` slice. -/
def pruneKeyShares (s : Finset GroupId) (l : List KeyShare) : Bool × List KeyShare :=
  l.foldl (fun p k => if k.group ∈ s then p else (true, p.2 ++ [k])) (false, [])

/-- The Go filtering loop over one supported-curves list. -/
def pruneCurves (s : Finset GroupId) (l : List GroupId) : Bool × List GroupId :=
  l.foldl (fun p c => if c ∈ s then p else (true, p.2 ++ [c])) (false, [])

/-- One step of `Client.changeSpec`'s loop over the extension list,
threading the `change` flag and rebuilding the extension list in order. -/
def changeSpecStep (s : Finset GroupId) (p : Bool × List Ext) (e : Ext) : Bool × List Ext :=
  match e with
  | .keyShare ks =>
    if 0 < s.card then
      let r := pruneKeyShares s ks
      (p.1 || r.1, p.2 ++ [.keyShare r.2])
    else (p.1, p.2 ++ [e])
  | .supportedCurves cs =>
    if 0 < s.card then
      let r := pruneCurves s cs
      (p.1 || r.1, p.2 ++ [.supportedCurves r.2])
    else (p.1, p.2 ++ [e])
  | e => (p.1, p.2 ++ [e])

/-- `Client.changeSpec`: apply the destination's ErrorMemory to a spec,
pruning rejected groups from every key-share and supported-curves
extension; returns the `change` flag and the mutated spec. -/
def changeSpec (reg : Reg) (key : String) (spec : ClientHelloSpec) :
    Bool × ClientHelloSpec :=
  match regLookup reg key with
  | none => (false, spec)
  | some s =>
    let r := spec.extensions.foldl (changeSpecStep s) (false, [])
    (r.1, { spec with extensions := r.2 })

/-- The HTTP/3 ALPN identifier (external constant `http3.NextProtoH3`). -/
def nextProtoH3 : String := "h3"

/-- Rewrite the first ALPN extension's protocol list with `f`, leaving
everything else alone; models the `for ... break` loops in
`createSpecWithSpec`. -/
def modifyFirstAlpn (f : List String → List String) : List Ext → List Ext
  | [] => []
  | .alpn ps :: rest => .alpn (f ps) :: rest
  | e :: rest => e :: modifyFirstAlpn f rest

/-- The HTTP/1.1-only ALPN rewrite: drop the first `"h2"` entry if present
(`slices.Index` + `slices.Delete`), then prepend `"http/1.1"` when it is
absent. -/
def alpnH1Adjust (ps : List String) : List String :=
  let ps1 := ps.erase "h2"
  if "http/1.1" ∈ ps1 then ps1 else "http/1.1" :: ps1

/-- `createSpecWithSpec`: protocol-mode adjustment of the ALPN list.
The Go function always returns a nil error. -/
def createSpecWithSpec (utlsSpec : ClientHelloSpec) (h2 h3 : Bool) :
    Except String ClientHelloSpec :=
  if h3 then
    .ok { utlsSpec with extensions := modifyFirstAlpn (fun _ => [nextProtoH3]) utlsSpec.extensions }
  else if !h2 then
    .ok { utlsSpec with extensions := modifyFirstAlpn alpnH1Adjust utlsSpec.extensions }
  else .ok utlsSpec

/-- Outcome of the `ApplyPreset` retry loop in `Client.Client`. `ok` means
the loop broke out with a nil error (the code then proceeds to the
handshake); `err` carries the surfaced error together with the spec and
registry at exit and the number of attempts consumed; `out` is fuel
exhaustion of the model (never reached, see the termination theorem). -/
inductive LoopResult where
  | ok (spec : ClientHelloSpec) (reg : Reg) (attempts : ℕ)
  | err (msg : List Char) (spec : ClientHelloSpec) (reg : Reg) (attempts : ℕ)
  | out
deriving DecidableEq

/-- The retry loop of `Client.Client`. The external, out-of-scope
`utlsConn.ApplyPreset` call is modelled by the oracle `errs`, giving the
error (or success, `none`) of the `n`-th attempt; everything else follows
the source: on an error, classify and record it (`setSpecErrWithError`),
abort surfacing the error when the classification reports no change, else
re-apply the memory (`changeSpec`) and abort likewise when that reports no
change, else retry. -/
def clientLoop (errs : ℕ → Option (List Char)) (key : String) :
    ℕ → ℕ → ClientHelloSpec → Reg → LoopResult
  | 0, _, _, _ => .out
  | fuel + 1, n, spec, reg =>
    match errs n with
    | none => .ok spec reg (n + 1)
    | some e =>
      let c1 := setSpecErrWithError reg key e
      if c1.1 then
        let c2 := changeSpec c1.2 key spec
        if c2.1 then clientLoop errs key fuel (n + 1) c2.2 c1.2
        else .err e c2.2 c1.2 (n + 1)
      else .err e spec c1.2 (n + 1)

/-- Size of a destination's ErrorMemory. -/
def memCard (reg : Reg) (key : String) : ℕ :=
  match regLookup reg key with
  | some s => s.card
  | none => 0

/- ### HTTP/2 fingerprint codec model -/

/-- Model of the `Setting` struct: `Id` is a Go `uint16`
(`Http2SettingID`), `Val` a Go `uint32`; the well-formedness predicate
below carries those range facts. -/
structure Setting where
  id : ℕ
  val : ℕ
deriving DecidableEq

/-- Model of the `Priority` struct. -/
structure Priority where
  streamDep : ℕ
  exclusive : Bool
  weight : ℕ
deriving DecidableEq

/-- Model of the `H2Spec` struct; `ConnFlow` is a Go `uint32` and header
names are Go strings. -/
structure H2Spec where
  initialSetting : List Setting
  connFlow : ℕ
  orderHeaders : List (List Char)
  priority : Priority
deriving DecidableEq

/-- Range constraints that hold of every Go `H2Spec` value by typing. -/
def H2Spec.WF (p : H2Spec) : Prop :=
  (∀ st ∈ p.initialSetting, st.id < 65536 ∧ st.val < 4294967296) ∧
    p.connFlow < 4294967296

instance (p : H2Spec) : Decidable p.WF := by
  unfold H2Spec.WF
  infer_instance

/-- One `id:value` token of the settings field (`fmt.Sprintf("%d:%d", ...)`). -/
def settingChars (st : Setting) : List Char :=
  natDigits st.id ++ ':' :: natDigits st.val

/-- The single-letter code of a pseudo-header name: the lower-cased switch
in `H2Spec.Fp` (other names produce nothing). -/
def headLetter (h : List Char) : Option Char :=
  let hl := h.map Char.toLower
  if hl = str ":method" then some 'm'
  else if hl = str ":authority" then some 'a'
  else if hl = str ":scheme" then some 's'
  else if hl = str ":path" then some 'p'
  else none

/-- `H2Spec.Fp`: the canonical fingerprint string
`settings|connFlow|0|headerLetters`. -/
def fp (p : H2Spec) : List Char :=
  joinSep '|'
    [ joinSep ',' (p.initialSetting.map settingChars)
    , natDigits p.connFlow
    , str "0"
    , joinSep ',' (p.orderHeaders.filterMap (fun h => (headLetter h).map (fun c => [c]))) ]

/-- The error values `CreateH2SpecWithStr` can produce: the two
`errors.New` literals and a `strconv.Atoi` failure. -/
inductive DecodeErr where
  | fmtErr
  | settingErr
  | atoiErr
deriving DecidableEq

/-- One settings token: split on `:`, require exactly two components, parse
both with `strconv.Atoi`, and convert through `uint16` / `uint32`. -/
def parseSetting (t : List Char) : Except DecodeErr Setting :=
  match splitSep ':' t with
  | [k, v] =>
    match goAtoi k with
    | none => .error .atoiErr
    | some ttKey =>
      match goAtoi v with
      | none => .error .atoiErr
      | some ttVal => .ok ⟨toU16 ttKey, toU32 ttVal⟩
  | _ => .error .settingErr

/-- The settings-field loop of `CreateH2SpecWithStr`: first failure wins. -/
def parseSettings : List (List Char) → Except DecodeErr (List Setting)
  | [] => .ok []
  | t :: ts =>
    match parseSetting t with
    | .error e => .error e
    | .ok st =>
      match parseSettings ts with
      | .error e => .error e
      | .ok sts => .ok (st :: sts)

/-- The letters-field switch of `CreateH2SpecWithStr`: unknown tokens are
silently skipped. -/
def letterToken (t : List Char) : Option (List Char) :=
  if t = str "m" then some (str ":method")
  else if t = str "a" then some (str ":authority")
  else if t = str "s" then some (str ":scheme")
  else if t = str "p" then some (str ":path")
  else none

/-- `CreateH2SpecWithStr`: decode a fingerprint string. The third field is
bound but never inspected; `Priority` is left at its zero value. -/
def CreateH2SpecWithStr (s : List Char) : Except DecodeErr H2Spec :=
  match splitSep '|' s with
  | [t0, t1, _t2, t3] =>
    match parseSettings (splitSep ',' t0) with
    | .error e => .error e
    | .ok settings =>
      match goAtoi t1 with
      | none => .error .atoiErr
      | some connFlow =>
        .ok { initialSetting := settings
              connFlow := toU32 connFlow
              orderHeaders := (splitSep ',' t3).filterMap letterToken
              priority := ⟨0, false, 0⟩ }
  | _ => .error .fmtErr

/-- The canonical pseudo-header name a header maps to through encoding
followed by decoding (none when the header is dropped by the codec). -/
def canonOf (h : List Char) : Option (List Char) :=
  (headLetter h).bind (fun c => letterToken [c])

/-- What decoding an encoded `H2Spec` yields: the settings and window
survive unchanged, the header order is restricted to the four canonical
pseudo-header names, and the priority is the zero value (it is not part of
the encoding). -/
def h2Decoded (p : H2Spec) : H2Spec :=
  { initialSetting := p.initialSetting
    connFlow := p.connFlow
    orderHeaders := p.orderHeaders.filterMap canonOf
    priority := ⟨0, false, 0⟩ }

/-- A concrete `H2Spec` exercising the codec: two settings, a window, and
two pseudo-headers around a non-pseudo-header that the codec drops. -/
def exampleH2 : H2Spec :=
  { initialSetting := [⟨1, 65536⟩, ⟨2, 0⟩]
    connFlow := 15663105
    orderHeaders := [str ":method", str "Host", str ":path"]
    priority := ⟨0, true, 255⟩ }

/- ### Spec builder (`CreateSpecWithClientHello`) -/

/-- An extension as produced by the external ClientHello parser, before the
1:1 `utlsExt()` conversion into a protocol-engine extension object. -/
structure RawExt where
  ext : Ext
deriving DecidableEq

/-- The 1:1 mapping of a parsed extension into a protocol-engine extension
object (`ext.utlsExt()` in the source; per the spec it is a plain 1:1
mapping). -/
def RawExt.utlsExt (r : RawExt) : Ext := r.ext

/-- Model of the intermediate `ClientHello` representation produced by the
external, out-of-scope binary parser. -/
structure ClientHello where
  cipherSuites : List ℕ
  compressionMethods : List ℕ
  extensions : List RawExt
deriving DecidableEq

/-- The dynamic type switch on the `any`-typed argument of
`CreateSpecWithClientHello`. -/
inductive ClientHelloInput where
  | bytes (value : List ℕ)
  | helloID (value : ℕ)
  | hexStr (value : List Char)
  | otherKind
deriving DecidableEq

/-- The common tail of the byte/hex paths: populate the spec from the
parsed ClientHello and set `GetSessionID` to `sha256.Sum256`. -/
def specOfClientHello (info : ClientHello) : ClientHelloSpec :=
  { cipherSuites := info.cipherSuites
    compressionMethods := info.compressionMethods
    extensions := info.extensions.map RawExt.utlsExt
    getSessionID := some .sha256Sum256 }

/-- `CreateSpecWithClientHello`, parameterized by its three external
collaborators: the binary ClientHello parser `decodeClientHello`, the
preset table `utlsIdToSpec` (`utls.UTLSIdToSpec`), and the hex decoder
`hexDecodeStr` (`hex.DecodeString`). Note the preset branch returns the
table's spec directly, before the `GetSessionID` assignment. -/
def CreateSpecWithClientHello
    (decodeClientHello : List ℕ → Except (List Char) ClientHello)
    (utlsIdToSpec : ℕ → Except (List Char) ClientHelloSpec)
    (hexDecodeStr : List Char → Except (List Char) (List ℕ))
    (clienthello : ClientHelloInput) : Except (List Char) ClientHelloSpec :=
  match clienthello with
  | .bytes value =>
    match decodeClientHello value with
    | .error e => .error e
    | .ok info => .ok (specOfClientHello info)
  | .helloID value => utlsIdToSpec value
  | .hexStr value =>
    match hexDecodeStr value with
    | .error e => .error e
    | .ok v =>
      match decodeClientHello v with
      | .error e => .error e
      | .ok info => .ok (specOfClientHello info)
  | .otherKind => .error (str "clienthello type error")

/-- Modelled from the spec: the external binary ClientHello parser is out
of scope ("treated as an opaque function producing a fixed intermediate
representation"); this stub instance always succeeds with an empty
structured ClientHello. Used only to instantiate closed statements. -/
def decodeClientHelloModel : List ℕ → Except (List Char) ClientHello :=
  fun _ => .ok ⟨[], [], []⟩

/-- Modelled from the spec: `utls.UTLSIdToSpec` belongs to the external TLS
engine (out of scope per the spec); it builds a preset's parameter object,
and nothing sets its session-id derivation function, so that field is the
zero value. Used only to instantiate closed statements. -/
def utlsIdToSpecModel : ℕ → Except (List Char) ClientHelloSpec :=
  fun _ => .ok ⟨[], [], [], none⟩

/-- Modelled from the spec: `hex.DecodeString` is a standard-library
collaborator; this stub instance decodes the empty string. Used only to
instantiate closed statements. -/
def hexDecodeStrModel : List Char → Except (List Char) (List ℕ) :=
  fun _ => .ok []

/- ### Interleaving model for concurrent ErrorMemory creation -/

/-- Per-thread control state for one call of
`setSpecErrWithKeyShareExtension`: before the `specErrData.Load`, after it
(holding the loaded record pointer, if any), or finished. -/
inductive TState where
  | start
  | loaded (snap : Option ℕ)
  | done
deriving DecidableEq

/-- Shared and per-thread state for `n` concurrent calls reporting the
same group to the same destination. The single destination's `sync.Map`
slot is `mapRef` (a record pointer, i.e. heap id); `heap` maps record ids
to the `kinds.Set` contents; `nextId` is the allocation counter. -/
structure CState (n : ℕ) where
  mapRef : Option ℕ
  heap : ℕ → Finset GroupId
  nextId : ℕ
  threads : Fin n → TState

/-- The initial state: destination unknown, all threads before their Load. -/
def cInit (n : ℕ) : CState n :=
  { mapRef := none, heap := fun _ => ∅, nextId := 0, threads := fun _ => .start }

/-- One atomic step of thread `t` reporting group `g`. The Load is one
atomic step (`sync.Map.Load` is atomic); the second step is the rest of
the call: on a hit, the `Has`/`Add` pair on the loaded record (atomic
because the record's set is internally synchronized), on a miss,
allocation of a fresh record holding `{g}` and the `Store` that publishes
it (the source's check-then-create pattern: the Store blindly overwrites). -/
def cStep (g : GroupId) (st : CState n) (t : Fin n) : CState n :=
  match st.threads t with
  | .start => { st with threads := Function.update st.threads t (.loaded st.mapRef) }
  | .loaded none =>
    { st with
      heap := fun i => if i = st.nextId then {g} else st.heap i
      mapRef := some st.nextId
      nextId := st.nextId + 1
      threads := Function.update st.threads t .done }
  | .loaded (some r) =>
    { st with
      heap := fun i => if i = r then (if g ∈ st.heap r then st.heap r else insert g (st.heap r)) else st.heap i
      threads := Function.update st.threads t .done }
  | .done => st

/-- Run a schedule: an arbitrary interleaving of the threads' steps. -/
def cRun (g : GroupId) (sched : List (Fin n)) (st : CState n) : CState n :=
  sched.foldl (cStep g) st

/- ### Specification-side predicates used to state the claims -/

/-- The protocol list of the first ALPN extension, if any. -/
def firstAlpn : List Ext → Option (List String)
  | [] => none
  | .alpn ps :: _ => some ps
  | _ :: rest => firstAlpn rest

/-- The per-extension `change` contribution of `Client.changeSpec`: an
entry of a key-share or supported-curves extension survives the pruning
(its group id is not in the rejected set), provided the memory is
nonempty. -/
def extChangeB (s : Finset GroupId) : Ext → Bool
  | .keyShare ks => decide (0 < s.card) && ks.any (fun k => decide (k.group ∉ s))
  | .supportedCurves cs => decide (0 < s.card) && cs.any (fun c => decide (c ∉ s))
  | _ => false

/-- The pruning of one extension, as an order-preserving filter: key-share
and supported-curves entries whose group id is in the rejected set are
removed and every other extension is untouched. -/
def pruneExtF (s : Finset GroupId) : Ext → Ext
  | .keyShare ks => .keyShare (ks.filter (fun k => decide (k.group ∉ s)))
  | .supportedCurves cs => .supportedCurves (cs.filter (fun c => decide (c ∉ s)))
  | e => e

/-- Some key-share or supported-curves entry of the spec has a group id
outside the rejected set (an entry survives pruning). -/
def specSurvivor (s : Finset GroupId) (spec : ClientHelloSpec) : Prop :=
  ∃ e ∈ spec.extensions,
    (∃ ks, e = Ext.keyShare ks ∧ ∃ k ∈ ks, k.group ∉ s) ∨
      (∃ cs, e = Ext.supportedCurves cs ∧ ∃ c ∈ cs, c ∉ s)

/-- A destination's ErrorMemory contains a group id. -/
def regHas (reg : Reg) (key : String) (g : GroupId) : Prop :=
  ∃ s, regLookup reg key = some s ∧ g ∈ s

/-- Whether a fallible computation succeeded. -/
def exceptIsOk {ε α : Type} : Except ε α → Bool
  | .ok _ => true
  | .error _ => false

instance {ε α : Type} [DecidableEq ε] [DecidableEq α] : DecidableEq (Except ε α) := fun a b =>
  match a, b with
  | .error e1, .error e2 =>
    if h : e1 = e2 then isTrue (by rw [h]) else isFalse (fun hc => h (by injection hc))
  | .ok x, .ok y =>
    if h : x = y then isTrue (by rw [h]) else isFalse (fun hc => h (by injection hc))
  | .error _, .ok _ => isFalse (fun hc => by injection hc)
  | .ok _, .error _ => isFalse (fun hc => by injection hc)

/-- Structural validity of one settings token: it splits on `:` into
exactly two components and both parse with `strconv.Atoi`. -/
def settingTokenOk (t : List Char) : Bool :=
  match splitSep ':' t with
  | [k, v] => (goAtoi k).isSome && (goAtoi v).isSome
  | _ => false

/-- Invariant of the concurrent-creation model: every published or
snapshotted record is allocated and holds exactly `{g}`, and a thread can
only be past its Load-miss/hit step if the map slot is populated or it
populated it itself. -/
def CInv (g : GroupId) (st : CState n) : Prop :=
  (∀ r, st.mapRef = some r → st.heap r = {g} ∧ r < st.nextId) ∧
    (∀ t r, st.threads t = .loaded (some r) →
      st.heap r = {g} ∧ r < st.nextId ∧ st.mapRef.isSome = true) ∧
    (∀ t, st.threads t = .done → st.mapRef.isSome = true)

/- ### Basic lemmas about the string utilities -/

theorem splitSep_ne_nil (sep : Char) (l : List Char) : splitSep sep l ≠ [] := by
  induction l with
  | nil => simp [splitSep]
  | cons c cs ih =>
    simp only [splitSep]
    split
    · simp
    · split
      · simp
      · simp

theorem splitSep_cons (sep c : Char) (cs : List Char) :
    splitSep sep (c :: cs) =
      if c = sep then [] :: splitSep sep cs
      else
        match splitSep sep cs with
        | [] => [[c]]
        | t :: ts => (c :: t) :: ts := rfl

theorem joinSep_cons_cons (sep : Char) (t t' : List Char) (ts : List (List Char)) :
    joinSep sep (t :: t' :: ts) = t ++ sep :: joinSep sep (t' :: ts) := rfl

theorem splitSep_of_not_mem {sep : Char} {l : List Char} (h : sep ∉ l) :
    splitSep sep l = [l] := by
  induction l with
  | nil => rfl
  | cons c cs ih =>
    simp only [List.mem_cons, not_or] at h
    rw [splitSep_cons, if_neg (fun hc => h.1 hc.symm), ih h.2]

theorem splitSep_append_sep {sep : Char} {t : List Char} (h : sep ∉ t) (r : List Char) :
    splitSep sep (t ++ sep :: r) = t :: splitSep sep r := by
  induction t with
  | nil => simp [splitSep]
  | cons c cs ih =>
    simp only [List.mem_cons, not_or] at h
    rw [List.cons_append, splitSep_cons, if_neg (fun hc => h.1 hc.symm), ih h.2]

theorem splitSep_joinSep {sep : Char} :
    ∀ {ts : List (List Char)}, ts ≠ [] → (∀ t ∈ ts, sep ∉ t) →
      splitSep sep (joinSep sep ts) = ts
  | [], h, _ => absurd rfl h
  | [t], _, hmem => by
      simp only [joinSep]
      exact splitSep_of_not_mem (hmem t (by simp))
  | t :: t' :: ts, _, hmem => by
      rw [joinSep_cons_cons]
      rw [splitSep_append_sep (hmem t (by simp))]
      rw [splitSep_joinSep (by simp) (fun x hx => hmem x (List.mem_cons_of_mem _ hx))]

theorem mem_joinSep {sep c : Char} {ts : List (List Char)} (h : c ∈ joinSep sep ts) :
    c = sep ∨ ∃ t ∈ ts, c ∈ t := by
  induction ts with
  | nil => simp [joinSep] at h
  | cons t ts ih =>
    cases ts with
    | nil =>
      simp only [joinSep] at h
      exact Or.inr ⟨t, by simp, h⟩
    | cons t' ts' =>
      simp only [joinSep, List.mem_append, List.mem_cons] at h
      rcases h with h | h | h
      · exact Or.inr ⟨t, by simp, h⟩
      · exact Or.inl h
      · rcases ih h with h | ⟨u, hu, hc⟩
        · exact Or.inl h
        · exact Or.inr ⟨u, List.mem_cons_of_mem _ hu, hc⟩

theorem toNat_digitChar : ∀ d < 10, (digitChar d).toNat = 48 + d := by decide

theorem isDigitCh_digitChar : ∀ d < 10, isDigitCh (digitChar d) = true := by decide

theorem digitChar_ne : ∀ d < 10, digitChar d ≠ ':' ∧ digitChar d ≠ ',' ∧
    digitChar d ≠ '|' ∧ digitChar d ≠ '+' ∧ digitChar d ≠ '-' := by decide

theorem natDigitsAux_spec : ∀ fuel n, n < fuel →
    natDigitsAux fuel n ≠ [] ∧ (∀ c ∈ natDigitsAux fuel n, ∃ d < 10, c = digitChar d) ∧
      parseDigits (natDigitsAux fuel n) = n := by
  intro fuel
  induction fuel with
  | zero => intro n hn; omega
  | succ fuel ih =>
    intro n hn
    by_cases h10 : n < 10
    · refine ⟨by simp [natDigitsAux, h10], ?_, ?_⟩
      · intro c hc
        simp [natDigitsAux, h10] at hc
        exact ⟨n, h10, hc⟩
      · simp only [natDigitsAux, if_pos h10, parseDigits, List.foldl_cons, List.foldl_nil]
        have := toNat_digitChar n h10
        simp [digitVal, this]
    · have hdiv : n / 10 < fuel := by
        have h1 : n / 10 < n := Nat.div_lt_self (by omega) (by omega)
        omega
      obtain ⟨hne, hdig, hval⟩ := ih (n / 10) hdiv
      have hmod : n % 10 < 10 := Nat.mod_lt _ (by omega)
      refine ⟨by simp [natDigitsAux, h10], ?_, ?_⟩
      · intro c hc
        simp only [natDigitsAux, if_neg h10, List.mem_append, List.mem_cons,
          List.not_mem_nil, or_false] at hc
        rcases hc with hc | hc
        · exact hdig c hc
        · exact ⟨n % 10, hmod, hc⟩
      · simp only [natDigitsAux, if_neg h10, parseDigits, List.foldl_append,
          List.foldl_cons, List.foldl_nil]
        have hv : digitVal (digitChar (n % 10)) = n % 10 := by
          simp [digitVal, toNat_digitChar _ hmod]
        simp only [parseDigits] at hval
        rw [hval, hv]
        omega

theorem natDigits_ne_nil (n : ℕ) : natDigits n ≠ [] :=
  (natDigitsAux_spec (n + 1) n (by omega)).1

theorem mem_natDigits {n : ℕ} {c : Char} (h : c ∈ natDigits n) : ∃ d < 10, c = digitChar d :=
  (natDigitsAux_spec (n + 1) n (by omega)).2.1 c h

theorem parseDigits_natDigits (n : ℕ) : parseDigits (natDigits n) = n :=
  (natDigitsAux_spec (n + 1) n (by omega)).2.2

theorem mem_natDigits_isDigitCh {n : ℕ} {c : Char} (h : c ∈ natDigits n) :
    isDigitCh c = true := by
  obtain ⟨d, hd, rfl⟩ := mem_natDigits h
  exact isDigitCh_digitChar d hd

theorem mem_natDigits_ne {n : ℕ} {c : Char} (h : c ∈ natDigits n) :
    c ≠ ':' ∧ c ≠ ',' ∧ c ≠ '|' ∧ c ≠ '+' ∧ c ≠ '-' := by
  obtain ⟨d, hd, rfl⟩ := mem_natDigits h
  exact digitChar_ne d hd

theorem goAtoiMag_digits {ds : List Char} (hne : ds ≠ []) (hall : ds.all isDigitCh = true)
    (hlt : parseDigits ds < 2 ^ 63) :
    goAtoiMag false ds = some ((parseDigits ds : Int)) := by
  have hv : (if (false : Bool) then -(parseDigits ds : Int) else (parseDigits ds : Int)) =
      (parseDigits ds : Int) := by simp
  have h1 : (0 : Int) ≤ (parseDigits ds : Int) := Int.ofNat_nonneg _
  have h2 : (parseDigits ds : Int) < 2 ^ 63 := by exact_mod_cast hlt
  have h3 : (2 : Int) ^ 63 = 9223372036854775808 := by norm_num
  rw [goAtoiMag, if_neg hne, if_pos hall, hv, if_neg]
  push_neg
  constructor <;> omega

theorem goAtoi_digits {l : List Char} (hne : l ≠ []) (hall : l.all isDigitCh = true)
    (hlt : parseDigits l < 2 ^ 63) : goAtoi l = some ((parseDigits l : Int)) := by
  obtain ⟨c, cs, rfl⟩ : ∃ c cs, l = c :: cs := by
    cases l with
    | nil => exact absurd rfl hne
    | cons c cs => exact ⟨c, cs, rfl⟩
  have hc : isDigitCh c = true := List.all_eq_true.1 hall c (by simp)
  have hplus : c ≠ '+' := by rintro rfl; exact absurd hc (by decide)
  have hminus : c ≠ '-' := by rintro rfl; exact absurd hc (by decide)
  rw [goAtoi.eq_def]
  split
  · rename_i heq
    injection heq with h1 h2
    exact absurd h1 hplus
  · rename_i heq
    injection heq with h1 h2
    exact absurd h1 hminus
  · exact goAtoiMag_digits hne hall hlt

theorem goAtoi_natDigits {n : ℕ} (h : n < 2 ^ 63) : goAtoi (natDigits n) = some (n : Int) := by
  have hr := goAtoi_digits (natDigits_ne_nil n)
    (List.all_eq_true.2 fun x hx => mem_natDigits_isDigitCh hx)
    (by rw [parseDigits_natDigits]; exact h)
  rw [parseDigits_natDigits] at hr
  exact hr

/- ### Registry lemmas -/

theorem regLookup_regStore_self (reg : Reg) (key : String) (v : Finset GroupId) :
    regLookup (regStore reg key v) key = some v := by
  induction reg with
  | nil => simp [regStore, regLookup]
  | cons p rest ih =>
    obtain ⟨k, s⟩ := p
    by_cases hk : k = key
    · simp [regStore, hk, regLookup]
    · simp only [regStore, if_neg hk, regLookup]
      exact ih

theorem regLookup_regStore_other (reg : Reg) {key key2 : String} (hne : key ≠ key2)
    (v : Finset GroupId) : regLookup (regStore reg key v) key2 = regLookup reg key2 := by
  induction reg with
  | nil => simp [regStore, regLookup, hne]
  | cons p rest ih =>
    obtain ⟨k, s⟩ := p
    by_cases hk : k = key
    · subst hk
      simp [regStore, regLookup, hne]
    · simp only [regStore, if_neg hk, regLookup]
      by_cases hk2 : k = key2
      · rw [if_pos hk2, if_pos hk2]
      · rw [if_neg hk2, if_neg hk2]
        exact ih

theorem setSpecErrKSE_mem_self (reg : Reg) (key : String) (g : GroupId) :
    ∃ s, regLookup (setSpecErrWithKeyShareExtension reg key g).2 key = some s ∧ g ∈ s := by
  unfold setSpecErrWithKeyShareExtension
  cases h : regLookup reg key with
  | some s =>
    by_cases hg : g ∈ s
    · exact ⟨s, by simp [hg, h], hg⟩
    · refine ⟨insert g s, ?_, Finset.mem_insert_self g s⟩
      simp only [if_neg hg]
      exact regLookup_regStore_self reg key (insert g s)
  | none =>
    refine ⟨{g}, ?_, Finset.mem_singleton_self g⟩
    exact regLookup_regStore_self reg key {g}

theorem setSpecErrKSE_of_mem {reg : Reg} {key : String} {g : GroupId} {s : Finset GroupId}
    (h : regLookup reg key = some s) (hg : g ∈ s) :
    setSpecErrWithKeyShareExtension reg key g = (false, reg) := by
  unfold setSpecErrWithKeyShareExtension
  rw [h]
  simp [hg]

theorem setSpecErrKSE_mono {reg : Reg} {key2 : String} {g2 : GroupId}
    (key : String) (g : GroupId) (h : regHas reg key2 g2) :
    regHas (setSpecErrWithKeyShareExtension reg key g).2 key2 g2 := by
  obtain ⟨s2, hs2, hg2⟩ := h
  unfold setSpecErrWithKeyShareExtension
  cases h : regLookup reg key with
  | some s =>
    by_cases hg : g ∈ s
    · exact ⟨s2, by simpa [hg] using hs2, hg2⟩
    · simp only [if_neg hg]
      by_cases hk : key = key2
      · subst hk
        rw [h] at hs2
        obtain rfl := Option.some.inj hs2
        exact ⟨insert g s, regLookup_regStore_self reg key _,
          Finset.mem_insert_of_mem hg2⟩
      · exact ⟨s2, by rw [regLookup_regStore_other reg hk]; exact hs2, hg2⟩
  | none =>
    by_cases hk : key = key2
    · subst hk
      rw [h] at hs2
      exact absurd hs2 (by simp)
    · exact ⟨s2, by rw [regLookup_regStore_other reg hk]; exact hs2, hg2⟩

theorem setSpecErrWithError_cases (reg : Reg) (key : String) (msg : List Char) :
    setSpecErrWithError reg key msg = (false, reg) ∨
      ∃ g, setSpecErrWithError reg key msg = setSpecErrWithKeyShareExtension reg key g := by
  unfold setSpecErrWithError
  split
  · exact Or.inl rfl
  · split
    · exact Or.inl rfl
    · exact Or.inr ⟨_, rfl⟩

theorem setSpecErrWithError_mono {reg : Reg} {key2 : String} {g2 : GroupId}
    (key : String) (msg : List Char) (h : regHas reg key2 g2) :
    regHas (setSpecErrWithError reg key msg).2 key2 g2 := by
  rcases setSpecErrWithError_cases reg key msg with hc | ⟨g, hc⟩
  · rw [hc]
    exact h
  · rw [hc]
    exact setSpecErrKSE_mono key g h

/-- C3. Recording a rejected group is idempotent and the registry is
monotone: after a first record of `g` for `key`, the memory contains `g`;
a second identical record reports `change = false` and leaves the registry
untouched; and neither registry operation (`setSpecErrWithKeyShareExtension`
directly, or through `setSpecErrWithError`) ever removes a group id that
some destination's memory contains. (`changeSpec` only reads the
registry: it takes the registry as a value and returns none.) -/
theorem claimC3_record_idempotent_monotone :
    (∀ reg key g,
      (∃ s, regLookup (setSpecErrWithKeyShareExtension reg key g).2 key = some s ∧ g ∈ s) ∧
      setSpecErrWithKeyShareExtension (setSpecErrWithKeyShareExtension reg key g).2 key g =
        (false, (setSpecErrWithKeyShareExtension reg key g).2)) ∧
    (∀ reg key key2 g g2, regHas reg key2 g2 →
      regHas (setSpecErrWithKeyShareExtension reg key g).2 key2 g2) ∧
    (∀ reg key key2 msg g2, regHas reg key2 g2 →
      regHas (setSpecErrWithError reg key msg).2 key2 g2) := by
  refine ⟨fun reg key g => ?_, fun reg key key2 g g2 h => setSpecErrKSE_mono key g h,
    fun reg key key2 msg g2 h => setSpecErrWithError_mono key msg h⟩
  obtain ⟨s, hs, hg⟩ := setSpecErrKSE_mem_self reg key g
  exact ⟨⟨s, hs, hg⟩, setSpecErrKSE_of_mem hs hg⟩

/-- Witness for C3 at a concrete destination and group. -/
theorem claimC3_witness :
    (∃ s, regLookup (setSpecErrWithKeyShareExtension [] "example.com" 24).2 "example.com" =
        some s ∧ (24 : GroupId) ∈ s) ∧
      setSpecErrWithKeyShareExtension
          (setSpecErrWithKeyShareExtension [] "example.com" 24).2 "example.com" 24 =
        (false, (setSpecErrWithKeyShareExtension [] "example.com" 24).2) ∧
      regHas (setSpecErrWithKeyShareExtension [("a", {1})] "example.com" 24).2 "a" 1 ∧
      regHas (setSpecErrWithError [("a", {1})] "example.com"
        (str "unsupported Curve in KeyShareExtension: CurveID(29)")).2 "a" 1 := by
  refine ⟨(claimC3_record_idempotent_monotone.1 [] "example.com" 24).1,
    (claimC3_record_idempotent_monotone.1 [] "example.com" 24).2,
    claimC3_record_idempotent_monotone.2.1 [("a", {1})] "example.com" "a" 24 1
      ⟨{1}, rfl, by decide⟩,
    claimC3_record_idempotent_monotone.2.2 [("a", {1})] "example.com" "a"
      (str "unsupported Curve in KeyShareExtension: CurveID(29)") 1 ⟨{1}, rfl, by decide⟩⟩

/- ### changeSpec lemmas -/

theorem pruneKeyShares_eq (s : Finset GroupId) (l : List KeyShare) :
    pruneKeyShares s l =
      (l.any (fun k => decide (k.group ∉ s)), l.filter (fun k => decide (k.group ∉ s))) := by
  suffices haux : ∀ (l : List KeyShare) (c : Bool) (acc : List KeyShare),
      l.foldl (fun p k => if k.group ∈ s then p else (true, p.2 ++ [k])) (c, acc) =
        (c || l.any (fun k => decide (k.group ∉ s)),
          acc ++ l.filter (fun k => decide (k.group ∉ s))) by
    rw [pruneKeyShares, haux]
    simp
  intro l
  induction l with
  | nil => intro c acc; simp
  | cons k tl ih =>
    intro c acc
    by_cases hk : k.group ∈ s
    · have hd : decide (k.group ∉ s) = false := by simp [hk]
      simp only [List.foldl_cons, if_pos hk, ih, List.any_cons, List.filter_cons, hd]
      simp
    · have hd : decide (k.group ∉ s) = true := by simp [hk]
      simp only [List.foldl_cons, if_neg hk, ih, List.any_cons, List.filter_cons, hd]
      simp

theorem pruneCurves_eq (s : Finset GroupId) (l : List GroupId) :
    pruneCurves s l =
      (l.any (fun c => decide (c ∉ s)), l.filter (fun c => decide (c ∉ s))) := by
  suffices haux : ∀ (l : List GroupId) (c : Bool) (acc : List GroupId),
      l.foldl (fun p x => if x ∈ s then p else (true, p.2 ++ [x])) (c, acc) =
        (c || l.any (fun x => decide (x ∉ s)),
          acc ++ l.filter (fun x => decide (x ∉ s))) by
    rw [pruneCurves, haux]
    simp
  intro l
  induction l with
  | nil => intro c acc; simp
  | cons x tl ih =>
    intro c acc
    by_cases hx : x ∈ s
    · have hd : decide (x ∉ s) = false := by simp [hx]
      simp only [List.foldl_cons, if_pos hx, ih, List.any_cons, List.filter_cons, hd]
      simp
    · have hd : decide (x ∉ s) = true := by simp [hx]
      simp only [List.foldl_cons, if_neg hx, ih, List.any_cons, List.filter_cons, hd]
      simp

theorem changeSpecStep_eq (s : Finset GroupId) (c : Bool) (acc : List Ext) (e : Ext) :
    changeSpecStep s (c, acc) e = (c || extChangeB s e, acc ++ [pruneExtF s e]) := by
  cases e with
  | keyShare ks =>
    by_cases hcard : 0 < s.card
    · simp only [changeSpecStep, if_pos hcard, pruneKeyShares_eq, extChangeB, pruneExtF]
      simp [hcard]
    · have hs : s = ∅ := Finset.card_eq_zero.1 (by omega)
      subst hs
      simp only [changeSpecStep, if_neg hcard, extChangeB, pruneExtF]
      rw [List.filter_eq_self.2 (by simp)]
      simp
  | supportedCurves cs =>
    by_cases hcard : 0 < s.card
    · simp only [changeSpecStep, if_pos hcard, pruneCurves_eq, extChangeB, pruneExtF]
      simp [hcard]
    · have hs : s = ∅ := Finset.card_eq_zero.1 (by omega)
      subst hs
      simp only [changeSpecStep, if_neg hcard, extChangeB, pruneExtF]
      rw [List.filter_eq_self.2 (by simp)]
      simp
  | alpn ps => simp [changeSpecStep, extChangeB, pruneExtF]
  | other t p => simp [changeSpecStep, extChangeB, pruneExtF]

theorem changeSpec_foldl (s : Finset GroupId) :
    ∀ (es : List Ext) (c : Bool) (acc : List Ext),
      es.foldl (changeSpecStep s) (c, acc) =
        (c || es.any (extChangeB s), acc ++ es.map (pruneExtF s)) := by
  intro es
  induction es with
  | nil => intro c acc; simp
  | cons e tl ih =>
    intro c acc
    rw [List.foldl_cons, List.any_cons, List.map_cons, changeSpecStep_eq, ih]
    simp [Bool.or_assoc]

theorem changeSpec_none {reg : Reg} {key : String} (h : regLookup reg key = none)
    (spec : ClientHelloSpec) : changeSpec reg key spec = (false, spec) := by
  unfold changeSpec
  rw [h]

theorem changeSpec_some {reg : Reg} {key : String} {s : Finset GroupId}
    (h : regLookup reg key = some s) (spec : ClientHelloSpec) :
    changeSpec reg key spec =
      (spec.extensions.any (extChangeB s),
        { spec with extensions := spec.extensions.map (pruneExtF s) }) := by
  unfold changeSpec
  rw [h]
  simp only [changeSpec_foldl s spec.extensions false []]
  simp

theorem extChangeB_true_iff {s : Finset GroupId} (hs : s.Nonempty) (e : Ext) :
    extChangeB s e = true ↔
      (∃ ks, e = Ext.keyShare ks ∧ ∃ k ∈ ks, k.group ∉ s) ∨
        (∃ cs, e = Ext.supportedCurves cs ∧ ∃ c ∈ cs, c ∉ s) := by
  have hcard : 0 < s.card := Finset.card_pos.2 hs
  cases e with
  | keyShare ks => simp [extChangeB, hcard, List.any_eq_true]
  | supportedCurves cs => simp [extChangeB, hcard, List.any_eq_true]
  | alpn ps => simp [extChangeB]
  | other t p => simp [extChangeB]

theorem changeSpec_flag_iff {reg : Reg} {key : String} {s : Finset GroupId}
    (h : regLookup reg key = some s) (hs : s.Nonempty) (spec : ClientHelloSpec) :
    (changeSpec reg key spec).1 = true ↔ specSurvivor s spec := by
  rw [changeSpec_some h]
  simp only [List.any_eq_true, specSurvivor]
  constructor
  · rintro ⟨e, he, hb⟩
    exact ⟨e, he, (extChangeB_true_iff hs e).1 hb⟩
  · rintro ⟨e, he, hb⟩
    exact ⟨e, he, (extChangeB_true_iff hs e).2 hb⟩

/-- C1. `changeSpec` under a recorded ErrorMemory prunes exactly the
rejected group ids: the extension list is mapped by the order-preserving
filter `pruneExtF` (key-share entries and supported-curve entries with a
rejected group id are dropped, all other extensions are untouched), and the
cipher-suite list, the compression methods and the session-id function are
left unchanged. -/
theorem claimC1_changeSpec_prunes_exactly :
    ∀ reg key spec s, regLookup reg key = some s →
      (changeSpec reg key spec).2.extensions = spec.extensions.map (pruneExtF s) ∧
        (changeSpec reg key spec).2.cipherSuites = spec.cipherSuites ∧
        (changeSpec reg key spec).2.compressionMethods = spec.compressionMethods ∧
        (changeSpec reg key spec).2.getSessionID = spec.getSessionID := by
  intro reg key spec s h
  rw [changeSpec_some h]
  exact ⟨rfl, rfl, rfl, rfl⟩

/-- The spec template of the C1 example: key-share groups and supported
curves both 23, 24, 29, next to an untouched ALPN and opaque extension. -/
def exampleSpec : ClientHelloSpec :=
  { cipherSuites := [4865, 4866]
    compressionMethods := [0]
    extensions :=
      [ Ext.keyShare [⟨23, [1]⟩, ⟨24, [2]⟩, ⟨29, [3]⟩]
      , Ext.supportedCurves [23, 24, 29]
      , Ext.alpn ["h2", "http/1.1"]
      , Ext.other 13 [4, 5] ]
    getSessionID := some .sha256Sum256 }

/-- Witness for C1: memory {24} for "example.com" turns both lists into
{23, 29} and changes nothing else. -/
theorem claimC1_witness :
    regLookup [("example.com", {24})] "example.com" = some {24} ∧
      ((changeSpec [("example.com", {24})] "example.com" exampleSpec).2.extensions =
          exampleSpec.extensions.map (pruneExtF {24}) ∧
        (changeSpec [("example.com", {24})] "example.com" exampleSpec).2.cipherSuites =
          exampleSpec.cipherSuites ∧
        (changeSpec [("example.com", {24})] "example.com" exampleSpec).2.compressionMethods =
          exampleSpec.compressionMethods ∧
        (changeSpec [("example.com", {24})] "example.com" exampleSpec).2.getSessionID =
          exampleSpec.getSessionID) ∧
      exampleSpec.extensions.map (pruneExtF {24}) =
        [ Ext.keyShare [⟨23, [1]⟩, ⟨29, [3]⟩]
        , Ext.supportedCurves [23, 29]
        , Ext.alpn ["h2", "http/1.1"]
        , Ext.other 13 [4, 5] ] := by
  refine ⟨by decide, claimC1_changeSpec_prunes_exactly
    [("example.com", {24})] "example.com" exampleSpec {24} (by decide), by decide⟩

/-- C10. The `change` flag of `changeSpec` reports that an entry survived
pruning, not that anything was removed: with no recorded memory it is
false; with a recorded (necessarily nonempty) memory it is true exactly
when some key-share or supported-curves entry has a group id outside the
memory; and in the retry loop, when after recording nothing survives, the
controller returns the classified error itself instead of attempting a
handshake with the emptied lists. -/
theorem claimC10_change_flag_meaning :
    (∀ reg key spec, regLookup reg key = none → (changeSpec reg key spec).1 = false) ∧
      (∀ reg key spec s, regLookup reg key = some s → s.Nonempty →
        ((changeSpec reg key spec).1 = true ↔ specSurvivor s spec)) ∧
      (∀ errs key fuel n spec reg msg reg2 s2,
        errs n = some msg →
        setSpecErrWithError reg key msg = (true, reg2) →
        regLookup reg2 key = some s2 →
        ¬ specSurvivor s2 spec →
        clientLoop errs key (fuel + 1) n spec reg =
          .err msg (changeSpec reg2 key spec).2 reg2 (n + 1)) := by
  refine ⟨fun reg key spec h => by rw [changeSpec_none h],
    fun reg key spec s h hs => changeSpec_flag_iff h hs spec, ?_⟩
  intro errs key fuel n spec reg msg reg2 s2 herrs hset hlook hnos
  have hs2 : s2.Nonempty := by
    rcases setSpecErrWithError_cases reg key msg with hc | ⟨g, hc⟩
    · rw [hc] at hset
      simp at hset
    · have hmem := setSpecErrKSE_mem_self reg key g
      rw [← hc, hset] at hmem
      obtain ⟨s3, hs3, hg⟩ := hmem
      rw [hlook] at hs3
      obtain rfl := Option.some.inj hs3
      exact ⟨g, hg⟩
  have hflag : (changeSpec reg2 key spec).1 = false := by
    cases hb : (changeSpec reg2 key spec).1 with
    | false => rfl
    | true => exact absurd ((changeSpec_flag_iff hlook hs2 spec).1 hb) hnos
  simp only [clientLoop]
  rw [herrs]
  simp [hset, hflag]

/-- Witness for C10: no record gives a false flag; with memory {24} a
surviving curve makes it true; with no survivors the loop returns the
classification error at once. -/
theorem claimC10_witness :
    ((changeSpec [] "h" exampleSpec).1 = false) ∧
      ((changeSpec [("h", {24})] "h" exampleSpec).1 = true ↔
        specSurvivor {24} exampleSpec) ∧
      clientLoop (fun _ => some (str "unsupported Curve in KeyShareExtension: CurveID(29)"))
          "h" 1 0
          ⟨[], [], [Ext.keyShare [⟨29, []⟩], Ext.supportedCurves [29]], none⟩ [] =
        .err (str "unsupported Curve in KeyShareExtension: CurveID(29)")
          (changeSpec [("h", {29})] "h"
            ⟨[], [], [Ext.keyShare [⟨29, []⟩], Ext.supportedCurves [29]], none⟩).2
          [("h", {29})] 1 := by
  refine ⟨claimC10_change_flag_meaning.1 [] "h" exampleSpec (by decide),
    claimC10_change_flag_meaning.2.1 [("h", {24})] "h" exampleSpec {24} (by decide)
      ⟨24, by decide⟩, ?_⟩
  refine claimC10_change_flag_meaning.2.2 _ "h" 0 0 _ [] _ [("h", {29})] {29} rfl
    (by decide) (by decide) ?_
  intro hsv
  obtain ⟨e, he, hcase⟩ := hsv
  rcases List.mem_cons.1 he with rfl | he2
  · rcases hcase with ⟨ks, hks, k, hk, hkg⟩ | ⟨cs, hcs, c, hc, hcg⟩
    · injection hks with h1
      subst h1
      rcases List.mem_singleton.1 hk with rfl
      exact hkg (by decide)
    · exact absurd hcs (by simp)
  · rcases List.mem_cons.1 he2 with rfl | he3
    · rcases hcase with ⟨ks, hks, k, hk, hkg⟩ | ⟨cs, hcs, c, hc, hcg⟩
      · exact absurd hks (by simp)
      · injection hcs with h1
        subst h1
        rcases List.mem_singleton.1 hc with rfl
        exact hcg (by decide)
    · simp at he3

/- ### Retry-loop lemmas: growth, termination, fail-fast -/

theorem setSpecErrKSE_card (reg : Reg) (key : String) (g : GroupId) :
    (setSpecErrWithKeyShareExtension reg key g).1 = true →
      memCard (setSpecErrWithKeyShareExtension reg key g).2 key = memCard reg key + 1 := by
  unfold setSpecErrWithKeyShareExtension
  split
  · rename_i s hl
    split
    · rename_i hg
      intro h
      simp at h
    · rename_i hg
      intro _
      simp [memCard, regLookup_regStore_self, hl, Finset.card_insert_of_not_mem hg]
  · rename_i hl
    intro _
    simp [memCard, regLookup_regStore_self, hl]

theorem setSpecErrWithError_true_card (reg : Reg) (key : String) (msg : List Char) :
    (setSpecErrWithError reg key msg).1 = true →
      memCard (setSpecErrWithError reg key msg).2 key = memCard reg key + 1 := by
  rcases setSpecErrWithError_cases reg key msg with hc | ⟨g, hc⟩
  · rw [hc]
    intro h
    simp at h
  · rw [hc]
    exact setSpecErrKSE_card reg key g

theorem memCard_le (reg : Reg) (key : String) : memCard reg key ≤ 65536 := by
  unfold memCard
  split
  · rename_i s _
    calc s.card ≤ (Finset.univ : Finset GroupId).card := Finset.card_le_univ s
      _ = 65536 := by rw [Finset.card_univ]; exact Fintype.card_fin 65536
  · omega

/-- C8. The retry loop terminates: a successful classification strictly
grows the destination's memory, the memory is bounded by the number of
16-bit group ids, and hence the loop never exhausts a fuel budget
exceeding `65536 - memCard`; in particular `2 ^ 16 + 1` iterations always
suffice, whatever the attempt oracle answers. -/
theorem claimC8_retry_loop_bounded :
    (∀ reg key msg, (setSpecErrWithError reg key msg).1 = true →
      memCard reg key < memCard (setSpecErrWithError reg key msg).2 key) ∧
      (∀ reg key, memCard reg key ≤ 65536) ∧
      (∀ errs key fuel n spec reg, 65536 < memCard reg key + fuel →
        clientLoop errs key fuel n spec reg ≠ LoopResult.out) := by
  refine ⟨fun reg key msg h => by rw [setSpecErrWithError_true_card reg key msg h]; omega,
    memCard_le, ?_⟩
  intro errs key fuel
  induction fuel with
  | zero =>
    intro n spec reg h
    have := memCard_le reg key
    omega
  | succ fuel ih =>
    intro n spec reg h
    simp only [clientLoop]
    cases herrs : errs n with
    | none => simp
    | some e =>
      by_cases h1 : (setSpecErrWithError reg key e).1 = true
      · by_cases h2 : (changeSpec (setSpecErrWithError reg key e).2 key spec).1 = true
        · simp only [h1, if_true, h2]
          refine ih (n + 1) _ _ ?_
          have hg := setSpecErrWithError_true_card reg key e h1
          omega
        · simp [h1, h2]
      · simp [h1]

/-- Witness for C8 at a concrete recognized error and a concrete fuel
budget of `2 ^ 16 + 1`. -/
theorem claimC8_witness :
    ((setSpecErrWithError [] "h"
        (str "unsupported Curve in KeyShareExtension: CurveID(29)")).1 = true ∧
      memCard [] "h" < memCard (setSpecErrWithError [] "h"
        (str "unsupported Curve in KeyShareExtension: CurveID(29)")).2 "h") ∧
      (65536 < memCard [] "h" + 65537 ∧
        clientLoop (fun _ => none) "h" 65537 0 ⟨[], [], [], none⟩ [] ≠ LoopResult.out) := by
  refine ⟨⟨by decide, claimC8_retry_loop_bounded.1 [] "h" _ (by decide)⟩,
    ⟨by decide, claimC8_retry_loop_bounded.2.2 (fun _ => none) "h" 65537 0
      ⟨[], [], [], none⟩ [] (by decide)⟩⟩

/-- C5. An error whose text does not contain the recognized
`unsupported Curve in KeyShareExtension: CurveID(N)` shape is never
recorded — the classifier returns false and leaves the registry
untouched — and the retry loop surfaces exactly that error after its first
attempt, with the spec and registry unchanged and no retry. -/
theorem claimC5_unrecognized_fail_fast :
    ∀ msg, reSearchCurve msg = none →
      (∀ reg key, setSpecErrWithError reg key msg = (false, reg)) ∧
        (∀ errs key fuel n spec reg, errs n = some msg →
          clientLoop errs key (fuel + 1) n spec reg = .err msg spec reg (n + 1)) := by
  intro msg hm
  have hset : ∀ reg key, setSpecErrWithError reg key msg = (false, reg) := by
    intro reg key
    unfold setSpecErrWithError
    rw [hm]
  refine ⟨hset, ?_⟩
  intro errs key fuel n spec reg herrs
  simp only [clientLoop]
  rw [herrs]
  simp [hset]

/-- Witness for C5 at the unrecognized error text "boom". -/
theorem claimC5_witness :
    reSearchCurve (str "boom") = none ∧
      setSpecErrWithError [("a", {1})] "example.com" (str "boom") = (false, [("a", {1})]) ∧
      clientLoop (fun _ => some (str "boom")) "example.com" 1 0 exampleSpec [("a", {1})] =
        .err (str "boom") exampleSpec [("a", {1})] 1 := by
  refine ⟨by decide,
    (claimC5_unrecognized_fail_fast (str "boom") (by decide)).1 [("a", {1})] "example.com",
    (claimC5_unrecognized_fail_fast (str "boom") (by decide)).2
      (fun _ => some (str "boom")) "example.com" 0 0 exampleSpec [("a", {1})] rfl⟩

/- ### Protocol-mode adjustment (C7) -/

theorem modifyFirstAlpn_of_no_alpn (f : List String → List String) :
    ∀ l : List Ext, (∀ ps, Ext.alpn ps ∉ l) → modifyFirstAlpn f l = l := by
  intro l
  induction l with
  | nil => intro _; rfl
  | cons e rest ih =>
    intro h
    cases e with
    | alpn ps => exact absurd (List.mem_cons_self _ _) (h ps)
    | keyShare ks =>
      show Ext.keyShare ks :: modifyFirstAlpn f rest = _
      rw [ih (fun ps hps => h ps (List.mem_cons_of_mem _ hps))]
    | supportedCurves cs =>
      show Ext.supportedCurves cs :: modifyFirstAlpn f rest = _
      rw [ih (fun ps hps => h ps (List.mem_cons_of_mem _ hps))]
    | other t p =>
      show Ext.other t p :: modifyFirstAlpn f rest = _
      rw [ih (fun ps hps => h ps (List.mem_cons_of_mem _ hps))]

theorem firstAlpn_modifyFirstAlpn (f : List String → List String) :
    ∀ l : List Ext, firstAlpn (modifyFirstAlpn f l) = (firstAlpn l).map f := by
  intro l
  induction l with
  | nil => rfl
  | cons e rest ih =>
    cases e with
    | alpn ps => rfl
    | keyShare ks => exact ih
    | supportedCurves cs => exact ih
    | other t p => exact ih

/-- C7 (amended). The protocol-mode adjustment: in HTTP/3 mode the first
ALPN extension's list is replaced by the single HTTP/3 identifier; in
HTTP/1.1-only mode the first `"h2"` occurrence is removed and
`"http/1.1"` is prepended when absent (when it is already present
anywhere, it is kept where it is — not necessarily first); in default
mode the spec is returned as supplied; with no ALPN extension the
adjustment is a no-op returning without error. -/
theorem claimC7_amended_protocol_mode :
    ∀ spec h2 h3,
      (h3 = true →
        createSpecWithSpec spec h2 h3 =
          .ok { spec with extensions :=
            modifyFirstAlpn (fun _ => [nextProtoH3]) spec.extensions } ∧
        firstAlpn (modifyFirstAlpn (fun _ => [nextProtoH3]) spec.extensions) =
          (firstAlpn spec.extensions).map (fun _ => [nextProtoH3])) ∧
      (h3 = false → h2 = false →
        createSpecWithSpec spec h2 h3 =
          .ok { spec with extensions := modifyFirstAlpn alpnH1Adjust spec.extensions } ∧
        firstAlpn (modifyFirstAlpn alpnH1Adjust spec.extensions) =
          (firstAlpn spec.extensions).map alpnH1Adjust) ∧
      (h3 = false → h2 = true → createSpecWithSpec spec h2 h3 = .ok spec) ∧
      ((∀ ps, Ext.alpn ps ∉ spec.extensions) → createSpecWithSpec spec h2 h3 = .ok spec) ∧
      (∀ ps, "http/1.1" ∈ alpnH1Adjust ps ∧
        ("http/1.1" ∉ ps → alpnH1Adjust ps = "http/1.1" :: ps.erase "h2") ∧
        ("http/1.1" ∈ ps.erase "h2" → alpnH1Adjust ps = ps.erase "h2")) := by
  intro spec h2 h3
  refine ⟨fun hh3 => ?_, fun hh3 hh2 => ?_, fun hh3 hh2 => ?_, fun hno => ?_, fun ps => ?_⟩
  · subst hh3
    exact ⟨by simp [createSpecWithSpec], firstAlpn_modifyFirstAlpn _ _⟩
  · subst hh3; subst hh2
    exact ⟨by simp [createSpecWithSpec], firstAlpn_modifyFirstAlpn _ _⟩
  · subst hh3; subst hh2
    simp [createSpecWithSpec]
  · unfold createSpecWithSpec
    split
    · rw [modifyFirstAlpn_of_no_alpn _ _ hno]
    · split
      · rw [modifyFirstAlpn_of_no_alpn _ _ hno]
      · rfl
  · refine ⟨?_, fun hnot => ?_, fun hmem => ?_⟩
    · by_cases hm : "http/1.1" ∈ ps.erase "h2"
      · simp [alpnH1Adjust, hm]
      · simp [alpnH1Adjust, hm]
    · have hnot2 : "http/1.1" ∉ ps.erase "h2" :=
        fun hc => hnot (List.mem_of_mem_erase hc)
      simp [alpnH1Adjust, hnot2]
    · simp [alpnH1Adjust, hmem]

/-- The C7 counterexample template: an ALPN list where `"http/1.1"` is
present but not first. -/
def specC7 : ClientHelloSpec :=
  { cipherSuites := []
    compressionMethods := []
    extensions := [Ext.alpn ["spdy/3", "http/1.1"]]
    getSessionID := none }

/-- Counterexample for C7 as stated: in HTTP/1.1-only mode with ALPN list
`["spdy/3", "http/1.1"]` the adjustment returns the list unchanged, so
`"http/1.1"` is present but not first — the claim's "ensured to be
present and first" fails. -/
theorem claimC7_counterexample :
    createSpecWithSpec specC7 false false = .ok specC7 ∧
      firstAlpn specC7.extensions = some ["spdy/3", "http/1.1"] ∧
      (["spdy/3", "http/1.1"] : List String).head? ≠ some "http/1.1" := by
  refine ⟨rfl, rfl, by decide⟩

/-- Witness for C7 (amended) at the spec's own example: ALPN
`["h2", "http/1.1"]` in HTTP/1.1-only mode becomes `["http/1.1"]`, and in
HTTP/3 mode any first ALPN list is replaced by `[nextProtoH3]`. -/
theorem claimC7_witness :
    (createSpecWithSpec ⟨[], [], [Ext.alpn ["h2", "http/1.1"]], none⟩ false false =
        .ok { (⟨[], [], [Ext.alpn ["h2", "http/1.1"]], none⟩ : ClientHelloSpec) with
          extensions := modifyFirstAlpn alpnH1Adjust [Ext.alpn ["h2", "http/1.1"]] } ∧
      firstAlpn (modifyFirstAlpn alpnH1Adjust [Ext.alpn ["h2", "http/1.1"]]) =
        (firstAlpn [Ext.alpn ["h2", "http/1.1"]]).map alpnH1Adjust) ∧
      modifyFirstAlpn alpnH1Adjust [Ext.alpn ["h2", "http/1.1"]] =
        [Ext.alpn ["http/1.1"]] ∧
      (createSpecWithSpec ⟨[], [], [Ext.alpn ["h2", "http/1.1"]], none⟩ true true =
        .ok { (⟨[], [], [Ext.alpn ["h2", "http/1.1"]], none⟩ : ClientHelloSpec) with
          extensions := modifyFirstAlpn (fun _ => [nextProtoH3]) [Ext.alpn ["h2", "http/1.1"]] } ∧
        firstAlpn (modifyFirstAlpn (fun _ => [nextProtoH3]) [Ext.alpn ["h2", "http/1.1"]]) =
          (firstAlpn [Ext.alpn ["h2", "http/1.1"]]).map (fun _ => [nextProtoH3])) ∧
      createSpecWithSpec ⟨[], [], [Ext.other 1 []], none⟩ false false =
        .ok ⟨[], [], [Ext.other 1 []], none⟩ := by
  refine ⟨(claimC7_amended_protocol_mode ⟨[], [], [Ext.alpn ["h2", "http/1.1"]], none⟩
      false false).2.1 rfl rfl, by decide,
    (claimC7_amended_protocol_mode ⟨[], [], [Ext.alpn ["h2", "http/1.1"]], none⟩
      true true).1 rfl,
    (claimC7_amended_protocol_mode ⟨[], [], [Ext.other 1 []], none⟩ false false).2.2.2.1
      ?_⟩
  intro ps hps
  simp at hps

/- ### Spec builder session-id derivation (C9) -/

/-- C9 (amended). The buffer-shaped inputs — a raw byte capture and a
hex-encoded capture — produce a spec whose `GetSessionID` is the fixed
`sha256.Sum256` hash; the named-preset input instead returns the external
preset table's spec unmodified (the early `return utls.UTLSIdToSpec(value)`
runs before the `GetSessionID` assignment), so only captures get the
deterministic session-id derivation from this builder. -/
theorem claimC9_amended_session_hash :
    ∀ dch its hexd,
      (∀ b info, dch b = Except.ok info →
        CreateSpecWithClientHello dch its hexd (.bytes b) = .ok (specOfClientHello info) ∧
          (specOfClientHello info).getSessionID = some SessionIdFun.sha256Sum256) ∧
      (∀ sx v info, hexd sx = Except.ok v → dch v = Except.ok info →
        CreateSpecWithClientHello dch its hexd (.hexStr sx) = .ok (specOfClientHello info) ∧
          (specOfClientHello info).getSessionID = some SessionIdFun.sha256Sum256) ∧
      (∀ idv, CreateSpecWithClientHello dch its hexd (.helloID idv) = its idv) := by
  intro dch its hexd
  refine ⟨fun b info hb => ⟨?_, rfl⟩, fun sx v info hx hv => ⟨?_, rfl⟩, fun idv => rfl⟩
  · simp [CreateSpecWithClientHello, hb]
  · simp [CreateSpecWithClientHello, hx, hv]

/-- Counterexample for C9 as stated: for a named preset identifier the
builder returns the external table's spec as-is; with the modelled
external table (whose specs carry no session-id derivation function, the
library default) the result's `GetSessionID` is not the SHA-256 hash. -/
theorem claimC9_counterexample :
    CreateSpecWithClientHello decodeClientHelloModel utlsIdToSpecModel hexDecodeStrModel
        (.helloID 0) = .ok ⟨[], [], [], none⟩ ∧
      (ClientHelloSpec.mk [] [] [] none).getSessionID ≠ some SessionIdFun.sha256Sum256 := by
  exact ⟨rfl, by simp⟩

/-- Witness for C9 (amended) at the modelled external collaborators. -/
theorem claimC9_witness :
    (decodeClientHelloModel [] = Except.ok ⟨[], [], []⟩ ∧
      CreateSpecWithClientHello decodeClientHelloModel utlsIdToSpecModel hexDecodeStrModel
          (.bytes []) = .ok (specOfClientHello ⟨[], [], []⟩) ∧
        (specOfClientHello ⟨[], [], []⟩).getSessionID = some SessionIdFun.sha256Sum256) ∧
      (CreateSpecWithClientHello decodeClientHelloModel utlsIdToSpecModel hexDecodeStrModel
          (.hexStr (str "16")) = .ok (specOfClientHello ⟨[], [], []⟩) ∧
        (specOfClientHello ⟨[], [], []⟩).getSessionID = some SessionIdFun.sha256Sum256) ∧
      CreateSpecWithClientHello decodeClientHelloModel utlsIdToSpecModel hexDecodeStrModel
        (.helloID 7) = utlsIdToSpecModel 7 := by
  refine ⟨⟨rfl, (claimC9_amended_session_hash decodeClientHelloModel utlsIdToSpecModel
      hexDecodeStrModel).1 [] ⟨[], [], []⟩ rfl⟩,
    (claimC9_amended_session_hash decodeClientHelloModel utlsIdToSpecModel
      hexDecodeStrModel).2.1 (str "16") [] ⟨[], [], []⟩ rfl rfl,
    (claimC9_amended_session_hash decodeClientHelloModel utlsIdToSpecModel
      hexDecodeStrModel).2.2 7⟩

/- ### Codec error conditions (C6) -/

theorem parseSetting_isOk (t : List Char) :
    exceptIsOk (parseSetting t) = settingTokenOk t := by
  unfold parseSetting settingTokenOk
  split
  · rename_i k v heq
    cases hk : goAtoi k with
    | none => simp [hk, exceptIsOk]
    | some i =>
      cases hv : goAtoi v with
      | none => simp [hk, hv, exceptIsOk]
      | some j => simp [hk, hv, exceptIsOk]
  · rfl

theorem parseSettings_isOk :
    ∀ ts, exceptIsOk (parseSettings ts) = ts.all settingTokenOk := by
  intro ts
  induction ts with
  | nil => rfl
  | cons t rest ih =>
    unfold parseSettings
    cases hp : parseSetting t with
    | error e =>
      have ht : settingTokenOk t = false := by rw [← parseSetting_isOk, hp]; rfl
      simp [hp, ht, exceptIsOk]
    | ok st =>
      have ht : settingTokenOk t = true := by rw [← parseSetting_isOk, hp]; rfl
      cases hr : parseSettings rest with
      | error e =>
        rw [hr] at ih
        simp [hp, hr, ht, exceptIsOk, ← ih]
      | ok sts =>
        rw [hr] at ih
        simp [hp, hr, ht, exceptIsOk, ← ih]

/-- C6. `CreateH2SpecWithStr` fails exactly when the string does not split
on `|` into exactly 4 fields (a format error), or some settings token does
not split on `:` into exactly two `strconv.Atoi`-parseable components, or
the flow field is not `strconv.Atoi`-parseable; the letters field and the
reserved third field never cause an error (unknown letters are silently
skipped). -/
theorem claimC6_decode_error_conditions :
    (∀ s, (splitSep '|' s).length ≠ 4 → CreateH2SpecWithStr s = .error .fmtErr) ∧
      (∀ s t0 t1 t2 t3, splitSep '|' s = [t0, t1, t2, t3] →
        exceptIsOk (CreateH2SpecWithStr s) =
          ((splitSep ',' t0).all settingTokenOk && (goAtoi t1).isSome)) := by
  constructor
  · intro s hlen
    unfold CreateH2SpecWithStr
    split
    · rename_i heq
      rw [heq] at hlen
      simp at hlen
    · rfl
  · intro s t0 t1 t2 t3 heq
    unfold CreateH2SpecWithStr
    split
    · rename_i u0 u1 u2 u3 hu
      rw [heq] at hu
      injection hu with h0 hu
      injection hu with h1 hu
      injection hu with h2 hu
      injection hu with h3 hu
      subst h0; subst h1; subst h3
      cases hp : parseSettings (splitSep ',' t0) with
      | error e =>
        have := parseSettings_isOk (splitSep ',' t0)
        rw [hp] at this
        simp [exceptIsOk, ← this]
      | ok sts =>
        have := parseSettings_isOk (splitSep ',' t0)
        rw [hp] at this
        cases hf : goAtoi t1 with
        | none => simp [hf, exceptIsOk, ← this]
        | some i => simp [hf, exceptIsOk, ← this]
    · rename_i hu
      exact absurd heq (hu t0 t1 t2 t3)

/-- Witness for C6 at concrete strings: a 2-field string is a format
error; a well-formed 4-field split with a bad settings token evaluates the
error condition; a fully numeric one succeeds. -/
theorem claimC6_witness :
    ((splitSep '|' (str "a|b")).length ≠ 4 ∧
      CreateH2SpecWithStr (str "a|b") = .error .fmtErr) ∧
      (splitSep '|' (str "1:x|5|0|m") = [str "1:x", str "5", str "0", str "m"] ∧
        exceptIsOk (CreateH2SpecWithStr (str "1:x|5|0|m")) =
          ((splitSep ',' (str "1:x")).all settingTokenOk && (goAtoi (str "5")).isSome)) ∧
      (splitSep '|' (str "1:2|5|0|zq") = [str "1:2", str "5", str "0", str "zq"] ∧
        exceptIsOk (CreateH2SpecWithStr (str "1:2|5|0|zq")) =
          ((splitSep ',' (str "1:2")).all settingTokenOk && (goAtoi (str "5")).isSome)) := by
  refine ⟨⟨by decide, claimC6_decode_error_conditions.1 (str "a|b") (by decide)⟩,
    ⟨by decide, claimC6_decode_error_conditions.2 (str "1:x|5|0|m")
      (str "1:x") (str "5") (str "0") (str "m") (by decide)⟩,
    ⟨by decide, claimC6_decode_error_conditions.2 (str "1:2|5|0|zq")
      (str "1:2") (str "5") (str "0") (str "zq") (by decide)⟩⟩

/- ### Concurrent creation of a destination record (C4) -/

theorem cInv_init (g : GroupId) (n : ℕ) : CInv g (cInit n) := by
  refine ⟨fun r hr => ?_, fun t r ht => ?_, fun t ht => ?_⟩
  · simp [cInit] at hr
  · simp [cInit] at ht
  · simp [cInit] at ht

theorem cStep_start {g : GroupId} {n : ℕ} {st : CState n} {t : Fin n}
    (hts : st.threads t = TState.start) :
    cStep g st t =
      { st with threads := Function.update st.threads t (TState.loaded st.mapRef) } := by
  unfold cStep
  rw [hts]

theorem cStep_loaded_none {g : GroupId} {n : ℕ} {st : CState n} {t : Fin n}
    (hts : st.threads t = TState.loaded none) :
    cStep g st t =
      { mapRef := some st.nextId
        heap := fun i => if i = st.nextId then {g} else st.heap i
        nextId := st.nextId + 1
        threads := Function.update st.threads t TState.done } := by
  unfold cStep
  rw [hts]

theorem cStep_loaded_some {g : GroupId} {n : ℕ} {st : CState n} {t : Fin n} {r0 : ℕ}
    (hts : st.threads t = TState.loaded (some r0)) :
    cStep g st t =
      { st with
        heap := fun i => if i = r0 then
          (if g ∈ st.heap r0 then st.heap r0 else insert g (st.heap r0)) else st.heap i
        threads := Function.update st.threads t TState.done } := by
  unfold cStep
  rw [hts]

theorem cStep_done {g : GroupId} {n : ℕ} {st : CState n} {t : Fin n}
    (hts : st.threads t = TState.done) : cStep g st t = st := by
  unfold cStep
  rw [hts]

theorem cInv_step {g : GroupId} {n : ℕ} {st : CState n} (h : CInv g st) (t : Fin n) :
    CInv g (cStep g st t) := by
  obtain ⟨h1, h2, h3⟩ := h
  cases hts : st.threads t with
  | start =>
    rw [cStep_start hts]
    refine ⟨fun r hr => h1 r hr, fun t2 r ht2 => ?_, fun t2 ht2 => ?_⟩
    · replace ht2 : Function.update st.threads t (TState.loaded st.mapRef) t2 =
        TState.loaded (some r) := ht2
      by_cases he : t2 = t
      · subst he
        rw [Function.update_same] at ht2
        injection ht2 with hm
        exact ⟨(h1 r hm).1, (h1 r hm).2, by show st.mapRef.isSome = true; rw [hm]; rfl⟩
      · rw [Function.update_noteq he] at ht2
        exact h2 t2 r ht2
    · replace ht2 : Function.update st.threads t (TState.loaded st.mapRef) t2 =
        TState.done := ht2
      by_cases he : t2 = t
      · subst he
        rw [Function.update_same] at ht2
        exact absurd ht2 (by simp)
      · rw [Function.update_noteq he] at ht2
        exact h3 t2 ht2
  | loaded snap =>
    cases snap with
    | none =>
      rw [cStep_loaded_none hts]
      refine ⟨fun r hr => ?_, fun t2 r ht2 => ?_, fun t2 ht2 => rfl⟩
      · replace hr : some st.nextId = some r := hr
        injection hr with hr
        subst hr
        refine ⟨?_, ?_⟩
        · show (if st.nextId = st.nextId then ({g} : Finset GroupId)
            else st.heap st.nextId) = {g}
          rw [if_pos rfl]
        · show st.nextId < st.nextId + 1
          omega
      · replace ht2 : Function.update st.threads t TState.done t2 =
          TState.loaded (some r) := ht2
        by_cases he : t2 = t
        · subst he
          rw [Function.update_same] at ht2
          exact absurd ht2 (by simp)
        · rw [Function.update_noteq he] at ht2
          obtain ⟨ha, hb, _⟩ := h2 t2 r ht2
          have hne : r ≠ st.nextId := by omega
          refine ⟨?_, ?_, rfl⟩
          · show (if r = st.nextId then ({g} : Finset GroupId) else st.heap r) = {g}
            rw [if_neg hne]
            exact ha
          · show r < st.nextId + 1
            omega
    | some r0 =>
      obtain ⟨hh0, hlt0, hsome0⟩ := h2 t r0 hts
      rw [cStep_loaded_some hts]
      have hheap : ∀ i, (if i = r0 then
          (if g ∈ st.heap r0 then st.heap r0 else insert g (st.heap r0)) else st.heap i) =
            st.heap i := by
        intro i
        by_cases hi : i = r0
        · subst hi
          rw [hh0]
          simp
        · rw [if_neg hi]
      refine ⟨fun r hr => ?_, fun t2 r ht2 => ?_, fun t2 ht2 => hsome0⟩
      · replace hr : st.mapRef = some r := hr
        obtain ⟨ha, hb⟩ := h1 r hr
        refine ⟨?_, hb⟩
        show (if r = r0 then
          (if g ∈ st.heap r0 then st.heap r0 else insert g (st.heap r0)) else st.heap r) = {g}
        rw [hheap r]
        exact ha
      · replace ht2 : Function.update st.threads t TState.done t2 =
          TState.loaded (some r) := ht2
        by_cases he : t2 = t
        · subst he
          rw [Function.update_same] at ht2
          exact absurd ht2 (by simp)
        · rw [Function.update_noteq he] at ht2
          obtain ⟨ha, hb, hc⟩ := h2 t2 r ht2
          refine ⟨?_, hb, hc⟩
          show (if r = r0 then
            (if g ∈ st.heap r0 then st.heap r0 else insert g (st.heap r0)) else st.heap r) = {g}
          rw [hheap r]
          exact ha
  | done =>
    rw [cStep_done hts]
    exact ⟨h1, h2, h3⟩

theorem cInv_run {g : GroupId} {n : ℕ} {st : CState n} (h : CInv g st)
    (sched : List (Fin n)) : CInv g (cRun g sched st) := by
  induction sched generalizing st with
  | nil => exact h
  | cons t rest ih => exact ih (cInv_step h t)

/-- C4. In the interleaving model of `setSpecErrWithKeyShareExtension`,
with any number of threads concurrently reporting the same new rejected
group for the same previously-unknown destination, under every schedule
that completes all threads exactly one record is published for the
destination and it contains the group exactly once (the record's set is
exactly `{g}`): no duplicate records (the map slot holds one record) and
no lost update of the group, despite the source's check-then-create
pattern, because every allocated record already carries `{g}`. -/
theorem claimC4_concurrent_creation :
    ∀ (n : ℕ) (g : GroupId) (sched : List (Fin n)), 0 < n →
      (∀ t, (cRun g sched (cInit n)).threads t = TState.done) →
      ∃ r, (cRun g sched (cInit n)).mapRef = some r ∧
        (cRun g sched (cInit n)).heap r = {g} := by
  intro n g sched hn hdone
  obtain ⟨h1, h2, h3⟩ := cInv_run (cInv_init g n) sched
  have hsome := h3 ⟨0, hn⟩ (hdone ⟨0, hn⟩)
  cases hm : (cRun g sched (cInit n)).mapRef with
  | none => rw [hm] at hsome; simp at hsome
  | some r => exact ⟨r, rfl, (h1 r hm).1⟩

/-- Witness for C4: two threads, both Load before either Stores (the racy
schedule that check-then-create gets wrong in general); afterwards the
destination holds one record containing group 24 exactly once. -/
theorem claimC4_witness :
    0 < 2 ∧ (∀ t, (cRun (24 : GroupId) [0, 1, 0, 1] (cInit 2)).threads t = TState.done) ∧
      ∃ r, (cRun (24 : GroupId) [0, 1, 0, 1] (cInit 2)).mapRef = some r ∧
        (cRun (24 : GroupId) [0, 1, 0, 1] (cInit 2)).heap r = {24} := by
  refine ⟨by decide, by decide, claimC4_concurrent_creation 2 24 [0, 1, 0, 1]
    (by decide) (by decide)⟩

/- ### Codec round-trip (C2) -/

theorem mem_settingChars {st : Setting} {c : Char} (h : c ∈ settingChars st) :
    isDigitCh c = true ∨ c = ':' := by
  simp only [settingChars, List.mem_append, List.mem_cons] at h
  rcases h with h | h | h
  · exact Or.inl (mem_natDigits_isDigitCh h)
  · exact Or.inr h
  · exact Or.inl (mem_natDigits_isDigitCh h)

theorem headLetter_cases {h : List Char} {c : Char} (hc : headLetter h = some c) :
    c = 'm' ∨ c = 'a' ∨ c = 's' ∨ c = 'p' := by
  simp only [headLetter] at hc
  split at hc
  · exact Or.inl (Option.some.inj hc).symm
  · split at hc
    · exact Or.inr (Or.inl (Option.some.inj hc).symm)
    · split at hc
      · exact Or.inr (Or.inr (Or.inl (Option.some.inj hc).symm))
      · split at hc
        · exact Or.inr (Or.inr (Or.inr (Option.some.inj hc).symm))
        · exact absurd hc (by simp)

theorem toU16_coe {n : ℕ} (h : n < 65536) : toU16 (n : Int) = n := by
  have he : (n : Int) % 65536 = (n : Int) := Int.emod_eq_of_lt (by omega) (by omega)
  simp [toU16, he]

theorem toU32_coe {n : ℕ} (h : n < 4294967296) : toU32 (n : Int) = n := by
  have he : (n : Int) % 4294967296 = (n : Int) := Int.emod_eq_of_lt (by omega) (by omega)
  simp [toU32, he]

theorem parseSetting_settingChars {st : Setting} (hid : st.id < 65536)
    (hval : st.val < 4294967296) : parseSetting (settingChars st) = .ok st := by
  have hsplit : splitSep ':' (settingChars st) = [natDigits st.id, natDigits st.val] := by
    unfold settingChars
    rw [splitSep_append_sep (fun hc => ((mem_natDigits_ne hc).1 rfl).elim)]
    rw [splitSep_of_not_mem (fun hc => ((mem_natDigits_ne hc).1 rfl).elim)]
  have hk : goAtoi (natDigits st.id) = some (st.id : Int) :=
    goAtoi_natDigits (by omega)
  have hv : goAtoi (natDigits st.val) = some (st.val : Int) :=
    goAtoi_natDigits (by omega)
  simp only [parseSetting, hsplit, hk, hv]
  rw [toU16_coe hid, toU32_coe hval]

theorem parseSettings_map {l : List Setting}
    (h : ∀ st ∈ l, st.id < 65536 ∧ st.val < 4294967296) :
    parseSettings (l.map settingChars) = .ok l := by
  induction l with
  | nil => rfl
  | cons st rest ih =>
    have hst := h st (by simp)
    have hrest := ih (fun x hx => h x (List.mem_cons_of_mem _ hx))
    simp only [List.map_cons, parseSettings, parseSetting_settingChars hst.1 hst.2, hrest]

theorem letters_mem {hs : List (List Char)} {t : List Char}
    (h : t ∈ hs.filterMap (fun h2 => (headLetter h2).map (fun c => [c]))) :
    ∃ c, (c = 'm' ∨ c = 'a' ∨ c = 's' ∨ c = 'p') ∧ t = [c] := by
  obtain ⟨h2, hmem, hmap⟩ := List.mem_filterMap.1 h
  cases hl : headLetter h2 with
  | none => rw [hl] at hmap; simp at hmap
  | some c =>
    rw [hl] at hmap
    simp at hmap
    exact ⟨c, headLetter_cases hl, hmap.symm⟩

theorem splitSep_fp (p : H2Spec) :
    splitSep '|' (fp p) =
      [ joinSep ',' (p.initialSetting.map settingChars)
      , natDigits p.connFlow
      , str "0"
      , joinSep ',' (p.orderHeaders.filterMap (fun h => (headLetter h).map (fun c => [c]))) ] := by
  unfold fp
  apply splitSep_joinSep (by simp)
  intro t ht
  simp only [List.mem_cons, List.not_mem_nil, or_false] at ht
  rcases ht with rfl | rfl | rfl | rfl
  · intro hbar
    rcases mem_joinSep hbar with h | ⟨u, hu, hc⟩
    · exact absurd h (by decide)
    · obtain ⟨st, hst, rfl⟩ := List.mem_map.1 hu
      rcases mem_settingChars hc with hd | hd
      · exact absurd hd (by decide)
      · exact absurd hd (by decide)
  · intro hbar
    exact (mem_natDigits_ne hbar).2.2.1 rfl
  · intro hbar
    exact absurd hbar (by decide)
  · intro hbar
    rcases mem_joinSep hbar with h | ⟨u, hu, hc⟩
    · exact absurd h (by decide)
    · obtain ⟨c, hcase, rfl⟩ := letters_mem hu
      simp only [List.mem_singleton] at hc
      rcases hcase with rfl | rfl | rfl | rfl <;> exact absurd hc (by decide)

theorem decode_headers (hs : List (List Char)) :
    (splitSep ',' (joinSep ','
        (hs.filterMap (fun h => (headLetter h).map (fun c => [c]))))).filterMap letterToken =
      hs.filterMap canonOf := by
  by_cases hl : hs.filterMap (fun h => (headLetter h).map (fun c => [c])) = []
  · have hc : ∀ h ∈ hs, canonOf h = none := by
      intro h hh
      have hmap := (List.filterMap_eq_nil_iff.1 hl) h hh
      cases hlet : headLetter h with
      | none => simp [canonOf, hlet]
      | some c => rw [hlet] at hmap; simp at hmap
    rw [hl, List.filterMap_eq_nil_iff.2 hc]
    decide
  · have hnos : ∀ t2 ∈ hs.filterMap (fun h => (headLetter h).map (fun c => [c])), ',' ∉ t2 := by
      intro t2 ht2 hcm
      obtain ⟨c, hcase, rfl⟩ := letters_mem ht2
      simp only [List.mem_singleton] at hcm
      rcases hcase with rfl | rfl | rfl | rfl <;> exact absurd hcm (by decide)
    rw [splitSep_joinSep hl hnos, List.filterMap_filterMap]
    have hfun : (fun h => ((headLetter h).map (fun c => [c])).bind letterToken) = canonOf := by
      funext h
      cases hlet : headLetter h with
      | none => simp [canonOf, hlet]
      | some c => simp [canonOf, hlet]
    rw [hfun]

theorem CreateH2SpecWithStr_fp {p : H2Spec} (hWF : p.WF) (hne : p.initialSetting ≠ []) :
    CreateH2SpecWithStr (fp p) = .ok (h2Decoded p) := by
  obtain ⟨hset, hflow⟩ := hWF
  have hsplit := splitSep_fp p
  have hsettings : splitSep ',' (joinSep ',' (p.initialSetting.map settingChars)) =
      p.initialSetting.map settingChars := by
    apply splitSep_joinSep
    · simpa using hne
    · intro t ht
      obtain ⟨st, hst, rfl⟩ := List.mem_map.1 ht
      intro hcm
      rcases mem_settingChars hcm with hd | hd
      · exact absurd hd (by decide)
      · exact absurd hd (by decide)
  have hps : parseSettings (splitSep ',' (joinSep ',' (p.initialSetting.map settingChars))) =
      .ok p.initialSetting := by
    rw [hsettings]
    exact parseSettings_map hset
  have hfl : goAtoi (natDigits p.connFlow) = some ((p.connFlow : Int)) :=
    goAtoi_natDigits (by omega)
  simp only [CreateH2SpecWithStr, hsplit, hps, hfl]
  rw [toU32_coe hflow, decode_headers]
  rfl

theorem fp_h2Decoded (p : H2Spec) : fp (h2Decoded p) = fp p := by
  unfold fp
  have h1 : (h2Decoded p).initialSetting = p.initialSetting := rfl
  have h2 : (h2Decoded p).connFlow = p.connFlow := rfl
  have h3 : (h2Decoded p).orderHeaders.filterMap (fun h => (headLetter h).map (fun c => [c])) =
      p.orderHeaders.filterMap (fun h => (headLetter h).map (fun c => [c])) := by
    show (p.orderHeaders.filterMap canonOf).filterMap _ = _
    rw [List.filterMap_filterMap]
    have hfun : (fun h => (canonOf h).bind (fun h2 => (headLetter h2).map (fun c => [c]))) =
        (fun h => (headLetter h).map (fun c => [c])) := by
      funext h
      cases hlet : headLetter h with
      | none => simp [canonOf, hlet]
      | some c =>
        rcases headLetter_cases hlet with rfl | rfl | rfl | rfl <;>
          simp [canonOf, hlet, letterToken] <;> decide
    rw [hfun]
  rw [h1, h2, h3]

/-- C2 (amended). The codec round-trips whenever the settings list is
nonempty: for every well-formed `H2Spec` with at least one setting,
decoding the encoded string succeeds, re-encoding reproduces the string
exactly, and the decoded value preserves the settings list in order, the
window value, and the header order restricted to the four canonical
pseudo-headers; in particular the claim's example string decodes and
re-encodes identically. When the settings list is empty the encoded
settings field is the empty string, which the decoder rejects, so the
claim's unrestricted form fails (see the counterexample). -/
theorem claimC2_amended_codec_roundtrip :
    (CreateH2SpecWithStr (str "1:65536,2:0,4:6291456,6:262144|15663105|0|m,a,s,p") =
        .ok ⟨[⟨1, 65536⟩, ⟨2, 0⟩, ⟨4, 6291456⟩, ⟨6, 262144⟩], 15663105,
          [str ":method", str ":authority", str ":scheme", str ":path"], ⟨0, false, 0⟩⟩ ∧
      fp (⟨[⟨1, 65536⟩, ⟨2, 0⟩, ⟨4, 6291456⟩, ⟨6, 262144⟩], 15663105,
          [str ":method", str ":authority", str ":scheme", str ":path"],
          ⟨0, false, 0⟩⟩ : H2Spec) =
        str "1:65536,2:0,4:6291456,6:262144|15663105|0|m,a,s,p") ∧
    ∀ p : H2Spec, p.WF → p.initialSetting ≠ [] →
      CreateH2SpecWithStr (fp p) = .ok (h2Decoded p) ∧
        (h2Decoded p).initialSetting = p.initialSetting ∧
        (h2Decoded p).connFlow = p.connFlow ∧
        (h2Decoded p).orderHeaders = p.orderHeaders.filterMap canonOf ∧
        fp (h2Decoded p) = fp p := by
  refine ⟨⟨by decide, by decide⟩, fun p hWF hne =>
    ⟨CreateH2SpecWithStr_fp hWF hne, rfl, rfl, rfl, fp_h2Decoded p⟩⟩

/-- Counterexample for C2 as stated: an `H2Spec` with an empty settings
list encodes to `"|1|0|"`, whose empty settings field the decoder rejects,
so decoding does not succeed on every string the encoder produces. -/
theorem claimC2_counterexample :
    fp (⟨[], 1, [], ⟨0, false, 0⟩⟩ : H2Spec) = str "|1|0|" ∧
      CreateH2SpecWithStr (str "|1|0|") = .error DecodeErr.settingErr := by
  exact ⟨by decide, by decide⟩

/-- Witness for C2 (amended) at a concrete spec whose header list mixes
pseudo-headers with a dropped ordinary header. -/
theorem claimC2_witness :
    (exampleH2.WF ∧ exampleH2.initialSetting ≠ []) ∧
      (CreateH2SpecWithStr (fp exampleH2) = .ok (h2Decoded exampleH2) ∧
        (h2Decoded exampleH2).initialSetting = exampleH2.initialSetting ∧
        (h2Decoded exampleH2).connFlow = exampleH2.connFlow ∧
        (h2Decoded exampleH2).orderHeaders = exampleH2.orderHeaders.filterMap canonOf ∧
        fp (h2Decoded exampleH2) = fp exampleH2) := by
  exact ⟨⟨by decide, by decide⟩,
    claimC2_amended_codec_roundtrip.2 exampleH2 (by decide) (by decide)⟩

end Ja3
